import Mathlib

/-
Verification of the two-tier cache engine in
`src/xiaomusic/utils/cache_manager.py` (classes `CacheManager` and
`MusicListCache`).

Shallow embedding conventions:
* Timestamps (`time.time()`) and TTL durations are modelled as integers
  (`ℤ`); the code only subtracts and compares them, so the embedding is
  faithful for every claim considered here.
* The in-process tier (`self.memory_cache`, a Python dict) and the on-disk
  tier (one `<md5(key)>.cache` file per key) are both modelled as
  association lists from the logical key to their content.  Per spec 4.1
  the key hash is deterministic and collision-free on the expected key
  space, so files are indexed by the logical key directly.
* A persisted file either deserializes to an entry (`FileContent.entry`)
  or raises in `pickle.load` (`FileContent.corrupt`).
* The failure modes of the disk write in `set` are modelled by
  `WriteOutcome`: the write succeeds, `open` itself raises and the prior
  file survives, or `open` succeeds — truncating any existing file —
  and `pickle.dump` then raises, leaving a truncated file that later
  fails deserialization.  Reads of an existing file and `unlink` of an
  existing file are modelled as succeeding; their failure modes are
  outside the claims.
-/

namespace XiaoMusic

/-- A deserialized cache entry, the record built by `CacheManager.set`:
payload (`data`), creation timestamp (`time`) and the TTL fixed at write
time (`ttl`). -/
structure Entry (α : Type) where
  data : α
  time : ℤ
  ttl : ℤ
deriving DecidableEq, Repr

/-- Contents of a persisted `.cache` file: either a pickled entry, or
bytes on which `pickle.load` raises (corrupt or truncated file). -/
inductive FileContent (α : Type) where
  | entry (e : Entry α)
  | corrupt
deriving DecidableEq, Repr

/-- Lookup in an association map (Python dict access / reading the file
named by the hashed key). -/
def lookupKey {β : Type} : List (String × β) → String → Option β
  | [], _ => none
  | (a, b) :: rest, k => if a = k then some b else lookupKey rest k

/-- Removal from an association map (Python `del d[k]` / `unlink`). -/
def eraseKey {β : Type} : List (String × β) → String → List (String × β)
  | [], _ => []
  | (a, b) :: rest, k =>
    if a = k then eraseKey rest k else (a, b) :: eraseKey rest k

/-- Update of an association map (Python `d[k] = v` / overwriting the
file named by the hashed key). -/
def insertKey {β : Type} (m : List (String × β)) (k : String) (v : β) :
    List (String × β) :=
  (k, v) :: eraseKey m k

theorem lookupKey_nil {β : Type} (k : String) :
    lookupKey ([] : List (String × β)) k = none := rfl

theorem lookupKey_cons {β : Type} (a : String) (b : β)
    (rest : List (String × β)) (k : String) :
    lookupKey ((a, b) :: rest) k =
      if a = k then some b else lookupKey rest k := rfl

theorem lookupKey_insert_self {β : Type} (m : List (String × β))
    (k : String) (v : β) : lookupKey (insertKey m k v) k = some v := by
  simp [insertKey, lookupKey]

theorem lookupKey_erase_self {β : Type} (m : List (String × β))
    (k : String) : lookupKey (eraseKey m k) k = none := by
  induction m with
  | nil => rfl
  | cons p rest ih =>
    obtain ⟨a, b⟩ := p
    by_cases h : a = k
    · simpa [eraseKey, h] using ih
    · simpa [eraseKey, lookupKey, h] using ih

theorem lookupKey_erase_ne {β : Type} (m : List (String × β))
    {k k' : String} (h : k' ≠ k) :
    lookupKey (eraseKey m k) k' = lookupKey m k' := by
  induction m with
  | nil => rfl
  | cons p rest ih =>
    obtain ⟨a, b⟩ := p
    by_cases ha : a = k
    · subst ha
      simp [eraseKey, lookupKey, Ne.symm h, ih]
    · by_cases ha' : a = k'
      · subst ha'
        simp [eraseKey, lookupKey, h]
      · simp [eraseKey, lookupKey, ha, ha', ih]

theorem lookupKey_insert_ne {β : Type} (m : List (String × β))
    {k k' : String} (v : β) (h : k' ≠ k) :
    lookupKey (insertKey m k v) k' = lookupKey m k' := by
  have hk : k ≠ k' := fun hc => h hc.symm
  simp [insertKey, lookupKey, hk, lookupKey_erase_ne m h]

/-- State of one `CacheManager` instance: the configured `default_ttl`,
the in-memory dict `memory_cache`, and the cache directory contents. -/
structure CacheState (α : Type) where
  default_ttl : ℤ
  memory_cache : List (String × Entry α)
  disk : List (String × FileContent α)
deriving DecidableEq, Repr

namespace CacheManager

/-- Python `ttl = ttl or self.default_ttl` (lines 48 and 90): `None` and
`0` are falsy, every other integer is kept. -/
def orDefault (default : ℤ) (ttl : Option ℤ) : ℤ :=
  match ttl with
  | none => default
  | some t => if t = 0 then default else t

/-- The read-time liveness test `current_time - cache_data["time"] < ttl`
(lines 54 and 66), parameterised by the TTL value the code compares
against. -/
def liveAt {α : Type} (e : Entry α) (t now : ℤ) : Bool :=
  decide (now - e.time < t)

/-- The cleanup expiry test
`current_time - cache_data["time"] > cache_data["ttl"]` (line 143). -/
def staleFor {α : Type} (e : Entry α) (now : ℤ) : Bool :=
  decide (now - e.time > e.ttl)

/-- File-tier half of `CacheManager.get` (lines 59-78).  `t` is the
already-coerced TTL of the current call; note the code compares the file
entry against `t`, not against the TTL stored in the entry.  A
deserialization failure is caught and only logged: the file is kept. -/
def diskGet {α : Type} (s : CacheState α) (key : String) (t now : ℤ) :
    Option α × CacheState α :=
  match lookupKey s.disk key with
  | none => (none, s)
  | some FileContent.corrupt => (none, s)
  | some (FileContent.entry e) =>
    if liveAt e t now then
      (some e.data, { s with memory_cache := insertKey s.memory_cache key e })
    else
      (none, { s with disk := eraseKey s.disk key })

/-- `CacheManager.get` (lines 38-78): memory tier first (checked against
the TTL stored on the entry), expired memory entries deleted, then the
file tier via `diskGet`. -/
def get {α : Type} (s : CacheState α) (key : String) (ttl : Option ℤ)
    (now : ℤ) : Option α × CacheState α :=
  match lookupKey s.memory_cache key with
  | some e =>
    if liveAt e e.ttl now then (some e.data, s)
    else
      diskGet { s with memory_cache := eraseKey s.memory_cache key } key
        (orDefault s.default_ttl ttl) now
  | none => diskGet s key (orDefault s.default_ttl ttl) now

/-- Outcome of the file write attempted by `CacheManager.set` (lines
102-107).  `open(cache_path, "wb")` truncates any existing file as soon
as it succeeds, so a failure raised by `pickle.dump` after a successful
`open` (disk full, unpicklable value) leaves a truncated file that later
fails deserialization; only a failure of `open` itself (permissions,
missing directory) leaves the previous file intact. -/
inductive WriteOutcome where
  | ok
  | openFail
  | dumpFail
deriving DecidableEq, Repr

/-- `CacheManager.set` (lines 80-107): build the entry with the coerced
TTL, store it in the memory dict, then try to write it to disk; any
failure is caught and logged, leaving the disk tier in whatever state
the failed write left it (see `WriteOutcome`). -/
def set {α : Type} (s : CacheState α) (key : String) (data : α)
    (ttl : Option ℤ) (now : ℤ) (w : WriteOutcome) : CacheState α :=
  let e : Entry α := ⟨data, now, orDefault s.default_ttl ttl⟩
  { s with
    memory_cache := insertKey s.memory_cache key e
    disk :=
      match w with
      | WriteOutcome.ok => insertKey s.disk key (FileContent.entry e)
      | WriteOutcome.openFail => s.disk
      | WriteOutcome.dumpFail => insertKey s.disk key FileContent.corrupt }

/-- `CacheManager.clear` (lines 109-131).  The code branches on Python
truthiness (`if key:`), so both `None` and the empty string select the
clear-everything branch. -/
def clear {α : Type} (s : CacheState α) (key : Option String) :
    CacheState α :=
  match key with
  | some k =>
    if k = "" then { s with memory_cache := [], disk := [] }
    else
      { s with
        memory_cache := eraseKey s.memory_cache k
        disk := eraseKey s.disk k }
  | none => { s with memory_cache := [], disk := [] }

/-- The per-file decision of `CacheManager.cleanup` (lines 138-152):
delete when the stored entry is stale by its own recorded TTL, and delete
any file whose deserialization raises. -/
def shouldDelete {α : Type} (now : ℤ) : FileContent α → Bool
  | FileContent.entry e => staleFor e now
  | FileContent.corrupt => true

/-- The directory sweep of `CacheManager.cleanup`: surviving files and
the `cleaned` counter. -/
def cleanupFiles {α : Type} (now : ℤ) :
    List (String × FileContent α) → List (String × FileContent α) × Nat
  | [] => ([], 0)
  | f :: rest =>
    let r := cleanupFiles now rest
    if shouldDelete now f.2 then (r.1, r.2 + 1) else (f :: r.1, r.2)

/-- `CacheManager.cleanup` (lines 133-155): sweep the cache directory,
leaving the memory tier untouched. -/
def cleanup {α : Type} (s : CacheState α) (now : ℤ) : CacheState α × Nat :=
  (({ s with disk := (cleanupFiles now s.disk).1 }), (cleanupFiles now s.disk).2)

end CacheManager

namespace MusicListCache

/-- `MUSIC_LIST_TTL = 7200` (line 162). -/
def MUSIC_LIST_TTL : ℤ := 7200

/-- `DURATION_TTL = 86400` (line 165). -/
def DURATION_TTL : ℤ := 86400

/-- `MusicListCache.get_duration` (lines 194-203): a `CacheManager.get`
on the namespaced key with the fixed duration TTL. -/
def get_duration {α : Type} (s : CacheState α) (filename : String)
    (now : ℤ) : Option α × CacheState α :=
  CacheManager.get s ("duration:" ++ filename) (some DURATION_TTL) now

/-- A value stored in the dict returned by `get_duration_batch`: either a
cached duration, or (under the key `"uncached"`) the list of misses. -/
inductive BatchVal (α : Type) where
  | dur (v : α)
  | missList (l : List String)
deriving DecidableEq, Repr

/-- The loop of `MusicListCache.get_duration_batch` (lines 226-238),
threading the cache state through the individual `get_duration` calls and
finally storing the miss list under the dict key `"uncached"`. -/
def batchLoop {α : Type} (now : ℤ) :
    List String → CacheState α → List (String × BatchVal α) →
      List String → List (String × BatchVal α) × CacheState α
  | [], s, result, uncached =>
    (insertKey result "uncached" (BatchVal.missList uncached), s)
  | f :: rest, s, result, uncached =>
    match get_duration s f now with
    | (some v, s2) => batchLoop now rest s2 (insertKey result f (BatchVal.dur v)) uncached
    | (none, s2) => batchLoop now rest s2 result (uncached ++ [f])

/-- `MusicListCache.get_duration_batch` (lines 217-238). -/
def get_duration_batch {α : Type} (s : CacheState α)
    (filenames : List String) (now : ℤ) :
    List (String × BatchVal α) × CacheState α :=
  batchLoop now filenames s [] []

/-- The miss list a consumer reads back from the returned dict: the
sequence stored under the key `"uncached"`. -/
def missesOf {α : Type} (result : List (String × BatchVal α)) :
    List String :=
  match lookupKey result "uncached" with
  | some (BatchVal.missList l) => l
  | _ => []

end MusicListCache

namespace CacheManager

/-- Pure view of the file-tier half of `get`: the value `diskGet` returns
as a function of the file found for the key. -/
def diskValueAt {α : Type} (di : Option (FileContent α)) (t now : ℤ) :
    Option α :=
  match di with
  | some (FileContent.entry e) => if liveAt e t now then some e.data else none
  | _ => none

/-- Pure view of `get`: the value returned as a function of what the two
tiers hold for the key. -/
def getValueAt {α : Type} (me : Option (Entry α))
    (di : Option (FileContent α)) (t now : ℤ) : Option α :=
  match me with
  | some e =>
    if liveAt e e.ttl now then some e.data else diskValueAt di t now
  | none => diskValueAt di t now

theorem diskGet_fst {α : Type} (s : CacheState α) (key : String)
    (t now : ℤ) :
    (diskGet s key t now).1 = diskValueAt (lookupKey s.disk key) t now := by
  unfold diskGet diskValueAt
  rcases lookupKey s.disk key with _ | f
  · rfl
  · rcases f with e | _
    · by_cases h : liveAt e t now <;> simp [h]
    · rfl

theorem get_fst {α : Type} (s : CacheState α) (key : String)
    (ttl : Option ℤ) (now : ℤ) :
    (get s key ttl now).1 =
      getValueAt (lookupKey s.memory_cache key) (lookupKey s.disk key)
        (orDefault s.default_ttl ttl) now := by
  unfold get getValueAt
  rcases lookupKey s.memory_cache key with _ | e
  · exact diskGet_fst s key _ now
  · by_cases h : liveAt e e.ttl now
    · simp [h]
    · simpa [h] using
        diskGet_fst { s with memory_cache := eraseKey s.memory_cache key }
          key (orDefault s.default_ttl ttl) now

theorem diskGet_snd_default {α : Type} (s : CacheState α) (key : String)
    (t now : ℤ) : (diskGet s key t now).2.default_ttl = s.default_ttl := by
  unfold diskGet
  rcases lookupKey s.disk key with _ | f
  · rfl
  · rcases f with e | _
    · by_cases h : liveAt e t now <;> simp [h]
    · rfl

theorem get_default_ttl {α : Type} (s : CacheState α) (key : String)
    (ttl : Option ℤ) (now : ℤ) :
    (get s key ttl now).2.default_ttl = s.default_ttl := by
  unfold get
  rcases lookupKey s.memory_cache key with _ | e
  · exact diskGet_snd_default s key _ now
  · by_cases h : liveAt e e.ttl now
    · simp [h]
    · simpa [h] using
        diskGet_snd_default { s with memory_cache := eraseKey s.memory_cache key }
          key (orDefault s.default_ttl ttl) now

theorem diskGet_frame {α : Type} (s : CacheState α) (key : String)
    (t now : ℤ) {k' : String} (h : k' ≠ key) :
    lookupKey (diskGet s key t now).2.memory_cache k' =
        lookupKey s.memory_cache k' ∧
      lookupKey (diskGet s key t now).2.disk k' = lookupKey s.disk k' := by
  unfold diskGet
  rcases lookupKey s.disk key with _ | f
  · exact ⟨rfl, rfl⟩
  · rcases f with e | _
    · by_cases hl : liveAt e t now
      · simp [hl, lookupKey_insert_ne _ _ h]
      · simp [hl, lookupKey_erase_ne _ h]
    · exact ⟨rfl, rfl⟩

theorem get_frame {α : Type} (s : CacheState α) (key : String)
    (ttl : Option ℤ) (now : ℤ) {k' : String} (h : k' ≠ key) :
    lookupKey (get s key ttl now).2.memory_cache k' =
        lookupKey s.memory_cache k' ∧
      lookupKey (get s key ttl now).2.disk k' = lookupKey s.disk k' := by
  unfold get
  rcases lookupKey s.memory_cache key with _ | e
  · exact diskGet_frame s key _ now h
  · by_cases hl : liveAt e e.ttl now
    · simp [hl]
    · have hd :=
        diskGet_frame { s with memory_cache := eraseKey s.memory_cache key }
          key (orDefault s.default_ttl ttl) now h
      simpa [hl, lookupKey_erase_ne _ h] using hd

theorem diskGet_stable {α : Type} (s : CacheState α) (key : String)
    (t now : ℤ) (hm : lookupKey s.memory_cache key = none) :
    getValueAt (lookupKey (diskGet s key t now).2.memory_cache key)
        (lookupKey (diskGet s key t now).2.disk key) t now =
      (diskGet s key t now).1 := by
  unfold diskGet
  rcases hd : lookupKey s.disk key with _ | f
  · simp [getValueAt, diskValueAt, hm, hd]
  · rcases f with e | _
    · by_cases hl : liveAt e t now
      · by_cases h2 : liveAt e e.ttl now <;>
          simp [hl, h2, getValueAt, diskValueAt, lookupKey_insert_self, hd]
      · simp [hl, getValueAt, diskValueAt, hm, lookupKey_erase_self]
    · simp [getValueAt, diskValueAt, hm, hd]

theorem get_stable {α : Type} (s : CacheState α) (key : String)
    (ttl : Option ℤ) (now : ℤ) :
    getValueAt (lookupKey (get s key ttl now).2.memory_cache key)
        (lookupKey (get s key ttl now).2.disk key)
        (orDefault s.default_ttl ttl) now = (get s key ttl now).1 := by
  unfold get
  rcases hm : lookupKey s.memory_cache key with _ | e
  · exact diskGet_stable s key _ now hm
  · by_cases hl : liveAt e e.ttl now
    · simp [hl, getValueAt, hm]
    · simpa [hl] using
        diskGet_stable { s with memory_cache := eraseKey s.memory_cache key }
          key (orDefault s.default_ttl ttl) now (lookupKey_erase_self _ _)

theorem cleanupFiles_fst {α : Type} (now : ℤ)
    (l : List (String × FileContent α)) :
    (cleanupFiles now l).1 = l.filter fun p => !shouldDelete now p.2 := by
  induction l with
  | nil => rfl
  | cons f rest ih =>
    by_cases h : shouldDelete now f.2 <;>
      simp [cleanupFiles, List.filter_cons, h, ih]

theorem cleanupFiles_snd {α : Type} (now : ℤ)
    (l : List (String × FileContent α)) :
    (cleanupFiles now l).2 = l.countP fun p => shouldDelete now p.2 := by
  induction l with
  | nil => rfl
  | cons f rest ih =>
    by_cases h : shouldDelete now f.2 <;>
      simp [cleanupFiles, List.countP_cons, h, ih]

end CacheManager

namespace MusicListCache

theorem orDefault_duration (d : ℤ) :
    CacheManager.orDefault d (some DURATION_TTL) = DURATION_TTL := by
  simp [CacheManager.orDefault, DURATION_TTL]

/-- Pure view of `get_duration`: the duration the façade returns for a
filename as a function of the two tiers of the current state. -/
def durValue {α : Type} (s : CacheState α) (f : String) (now : ℤ) :
    Option α :=
  CacheManager.getValueAt (lookupKey s.memory_cache ("duration:" ++ f))
    (lookupKey s.disk ("duration:" ++ f)) DURATION_TTL now

theorem get_duration_fst {α : Type} (s : CacheState α) (f : String)
    (now : ℤ) : (get_duration s f now).1 = durValue s f now := by
  rw [get_duration, CacheManager.get_fst, orDefault_duration, durValue]

theorem durKey_inj {a b : String}
    (h : "duration:" ++ a = "duration:" ++ b) : a = b := by
  have h2 : ("duration:" ++ a).data = ("duration:" ++ b).data := by rw [h]
  simp only [String.data_append] at h2
  exact String.ext (List.append_cancel_left h2)

theorem durValue_get_duration {α : Type} (s : CacheState α)
    (g f : String) (now : ℤ) :
    durValue (get_duration s g now).2 f now = durValue s f now := by
  by_cases hfg : f = g
  · subst hfg
    have h := CacheManager.get_stable s ("duration:" ++ f) (some DURATION_TTL) now
    rw [orDefault_duration] at h
    rw [durValue, ← get_duration_fst]
    exact h
  · have hk : ("duration:" ++ f) ≠ ("duration:" ++ g) := fun hc =>
      hfg (durKey_inj hc)
    have h := CacheManager.get_frame s ("duration:" ++ g) (some DURATION_TTL) now hk
    simp only [durValue, get_duration]
    rw [h.1, h.2]

theorem missesOf_insert {α : Type} (result : List (String × BatchVal α))
    (u : List String) :
    missesOf (insertKey result "uncached" (BatchVal.missList u)) = u := by
  simp [missesOf, lookupKey_insert_self]

theorem batchLoop_nil {α : Type} (now : ℤ) (s : CacheState α)
    (result : List (String × BatchVal α)) (uncached : List String) :
    batchLoop now [] s result uncached =
      (insertKey result "uncached" (BatchVal.missList uncached), s) := rfl

theorem batchLoop_cons_hit {α : Type} (now : ℤ) (f : String)
    (rest : List String) (s s2 : CacheState α)
    (result : List (String × BatchVal α)) (uncached : List String) (v : α)
    (h : get_duration s f now = (some v, s2)) :
    batchLoop now (f :: rest) s result uncached =
      batchLoop now rest s2 (insertKey result f (BatchVal.dur v)) uncached := by
  simp only [batchLoop, h]

theorem batchLoop_cons_miss {α : Type} (now : ℤ) (f : String)
    (rest : List String) (s s2 : CacheState α)
    (result : List (String × BatchVal α)) (uncached : List String)
    (h : get_duration s f now = (none, s2)) :
    batchLoop now (f :: rest) s result uncached =
      batchLoop now rest s2 result (uncached ++ [f]) := by
  simp only [batchLoop, h]

theorem batchLoop_hit {α : Type} (now : ℤ) {f : String}
    (hf : f ≠ "uncached") {v : α} :
    ∀ (l : List String) (s : CacheState α)
      (result : List (String × BatchVal α)) (uncached : List String),
      durValue s f now = some v →
      (f ∈ l →
          lookupKey (batchLoop now l s result uncached).1 f =
            some (BatchVal.dur v)) ∧
        (f ∉ l →
          lookupKey (batchLoop now l s result uncached).1 f =
            lookupKey result f) ∧
        (f ∈ missesOf (batchLoop now l s result uncached).1 ↔
          f ∈ uncached) := by
  intro l
  induction l with
  | nil =>
    intro s result uncached _
    refine ⟨?_, ?_, ?_⟩
    · intro hmem
      simp at hmem
    · intro _
      rw [batchLoop_nil]
      exact lookupKey_insert_ne _ _ hf
    · rw [batchLoop_nil, missesOf_insert]
  | cons g rest ih =>
    intro s result uncached hdv
    rcases hr : get_duration s g now with ⟨r1, s2⟩
    have h2 := durValue_get_duration s g f now
    simp only [hr] at h2
    have hinv : durValue s2 f now = some v := h2.trans hdv
    rcases r1 with _ | w
    · have hfg : f ≠ g := by
        intro hc
        subst hc
        have h3 := get_duration_fst s f now
        simp only [hr] at h3
        rw [hdv] at h3
        simp at h3
      rw [batchLoop_cons_miss now g rest s s2 result uncached hr]
      have IH := ih s2 result (uncached ++ [g]) hinv
      refine ⟨?_, ?_, ?_⟩
      · intro hmem
        rcases List.mem_cons.mp hmem with hc | hmem2
        · exact absurd hc hfg
        · exact IH.1 hmem2
      · intro hnm
        exact IH.2.1 fun hc => hnm (List.mem_cons_of_mem _ hc)
      · rw [IH.2.2]
        simp [List.mem_append, hfg]
    · rw [batchLoop_cons_hit now g rest s s2 result uncached w hr]
      have IH := ih s2 (insertKey result g (BatchVal.dur w)) uncached hinv
      by_cases hfg : f = g
      · subst hfg
        have hw : w = v := by
          have h3 := get_duration_fst s f now
          simp only [hr] at h3
          rw [hdv] at h3
          exact Option.some.inj h3
        subst hw
        refine ⟨?_, ?_, IH.2.2⟩
        · intro _
          by_cases hmem : f ∈ rest
          · exact IH.1 hmem
          · rw [IH.2.1 hmem, lookupKey_insert_self]
        · intro hnm
          exact absurd (List.mem_cons_self f rest) hnm
      · refine ⟨?_, ?_, IH.2.2⟩
        · intro hmem
          rcases List.mem_cons.mp hmem with hc | hmem2
          · exact absurd hc hfg
          · exact IH.1 hmem2
        · intro hnm
          have hnr : f ∉ rest := fun hc => hnm (List.mem_cons_of_mem _ hc)
          rw [IH.2.1 hnr, lookupKey_insert_ne _ _ hfg]

theorem batchLoop_missed {α : Type} (now : ℤ) {f : String}
    (hf : f ≠ "uncached") :
    ∀ (l : List String) (s : CacheState α)
      (result : List (String × BatchVal α)) (uncached : List String),
      durValue s f now = none →
      lookupKey (batchLoop now l s result uncached).1 f =
          lookupKey result f ∧
        (f ∈ missesOf (batchLoop now l s result uncached).1 ↔
          (f ∈ uncached ∨ f ∈ l)) := by
  intro l
  induction l with
  | nil =>
    intro s result uncached _
    refine ⟨?_, ?_⟩
    · rw [batchLoop_nil]
      exact lookupKey_insert_ne _ _ hf
    · rw [batchLoop_nil, missesOf_insert]
      simp
  | cons g rest ih =>
    intro s result uncached hdv
    rcases hr : get_duration s g now with ⟨r1, s2⟩
    have h2 := durValue_get_duration s g f now
    simp only [hr] at h2
    have hinv : durValue s2 f now = none := h2.trans hdv
    rcases r1 with _ | w
    · rw [batchLoop_cons_miss now g rest s s2 result uncached hr]
      have IH := ih s2 result (uncached ++ [g]) hinv
      refine ⟨IH.1, ?_⟩
      rw [IH.2]
      simp [List.mem_append, or_assoc]
    · have hfg : f ≠ g := by
        intro hc
        subst hc
        have h3 := get_duration_fst s f now
        simp only [hr] at h3
        rw [hdv] at h3
        simp at h3
      rw [batchLoop_cons_hit now g rest s s2 result uncached w hr]
      have IH := ih s2 (insertKey result g (BatchVal.dur w)) uncached hinv
      refine ⟨?_, ?_⟩
      · rw [IH.1, lookupKey_insert_ne _ _ hfg]
      · rw [IH.2]
        simp [List.mem_cons, hfg]

end MusicListCache

/-- C1: the claim says the persistent-tier liveness check uses the TTL
recorded on the entry itself.  The code (line 66) compares against the
TTL supplied to the current `get` call instead: an entry recorded with
`time = 0`, `ttl = 100` is live at `now = 50` under the recorded TTL (the
very predicate the memory tier uses), yet a `get` with override `10` on a
state holding only that file reports a miss and deletes the file. -/
theorem c1_disk_check_uses_call_ttl :
    CacheManager.liveAt (⟨7, 0, 100⟩ : Entry ℤ) 100 50 = true ∧
      (CacheManager.get
          (⟨3600, [], [("k", FileContent.entry ⟨7, 0, 100⟩)]⟩ : CacheState ℤ)
          "k" (some 10) 50).1 = none ∧
      (CacheManager.get
          (⟨3600, [], [("k", FileContent.entry ⟨7, 0, 100⟩)]⟩ : CacheState ℤ)
          "k" (some 10) 50).2.disk = [] := by
  decide

/-- C2 counterexample: on a state whose only trace of the key is a
corrupt persisted file, `get` returns absent but the file is NOT deleted,
and a subsequent `cleanup` still finds one file to remove — contradicting
the claimed self-healing delete. -/
theorem c2_counterexample :
    (CacheManager.get (⟨3600, [], [("k", FileContent.corrupt)]⟩ : CacheState ℤ)
        "k" none 5).1 = none ∧
      (CacheManager.get (⟨3600, [], [("k", FileContent.corrupt)]⟩ : CacheState ℤ)
          "k" none 5).2.disk = [("k", FileContent.corrupt)] ∧
      (CacheManager.cleanup
          (CacheManager.get (⟨3600, [], [("k", FileContent.corrupt)]⟩ : CacheState ℤ)
              "k" none 5).2 5).2 = 1 := by
  decide

/-- C2 (amended): for a key the memory tier does not hold and whose
persisted file fails deserialization, `get` returns absent and leaves the
state unchanged — in particular the corrupt file is kept; deletion of
corrupt files happens only in a later `cleanup`, after which no corrupt
file remains on disk. -/
theorem c2_corrupt_get_keeps_file {α : Type} (s : CacheState α)
    (k : String) (ttl : Option ℤ) (now now2 : ℤ)
    (hm : lookupKey s.memory_cache k = none)
    (hd : lookupKey s.disk k = some FileContent.corrupt) :
    CacheManager.get s k ttl now = (none, s) ∧
      ∀ p ∈ (CacheManager.cleanup s now2).1.disk,
        p.2 ≠ FileContent.corrupt := by
  constructor
  · unfold CacheManager.get CacheManager.diskGet
    rw [hm, hd]
  · intro p hp hc
    rw [CacheManager.cleanup] at hp
    rw [CacheManager.cleanupFiles_fst] at hp
    have hkeep := List.of_mem_filter hp
    rw [hc] at hkeep
    simp [CacheManager.shouldDelete] at hkeep

theorem c2_witness :
    CacheManager.get (⟨3600, [], [("j", FileContent.corrupt)]⟩ : CacheState ℤ)
        "j" none 0 =
      (none, (⟨3600, [], [("j", FileContent.corrupt)]⟩ : CacheState ℤ)) :=
  (c2_corrupt_get_keeps_file
      (⟨3600, [], [("j", FileContent.corrupt)]⟩ : CacheState ℤ)
      "j" none 0 0 (by decide) (by decide)).1

/-- C3: the claimed expiry property fails on the code.  With the
constructor default `default_ttl = 3600`, after `set(k, 7, ttl=10)` at
time 0, a plain `get(k)` at time 11 = T0 + t + 1 still returns the value
and the persisted file still exists, because the file-tier check compares
the entry age against the TTL of the `get` call (here the default 3600)
instead of the TTL the entry was written with. -/
theorem c3_expiry_violated :
    (CacheManager.get
        (CacheManager.set (⟨3600, [], []⟩ : CacheState ℤ) "k" 7 (some 10) 0
          CacheManager.WriteOutcome.ok)
        "k" none 11).1 = some 7 ∧
      lookupKey
        (CacheManager.get
            (CacheManager.set (⟨3600, [], []⟩ : CacheState ℤ) "k" 7 (some 10) 0
              CacheManager.WriteOutcome.ok)
            "k" none 11).2.disk "k" = some (FileContent.entry ⟨7, 0, 10⟩) := by
  decide

/-- C4: one `cleanup` call keeps exactly the deserializable files that
are not yet stale by the TTL recorded on them, deletes all stale and all
undeserializable files, reports the number deleted, leaves the memory
tier untouched, and the outcome is invariant under reordering of the
directory enumeration. -/
theorem c4_cleanup_exact {α : Type} (s t : CacheState α) (now : ℤ) :
    (CacheManager.cleanup s now).1.memory_cache = s.memory_cache ∧
      (CacheManager.cleanup s now).1.disk =
        s.disk.filter (fun p => !CacheManager.shouldDelete now p.2) ∧
      (CacheManager.cleanup s now).2 =
        s.disk.countP (fun p => CacheManager.shouldDelete now p.2) ∧
      (s.disk.Perm t.disk →
        (CacheManager.cleanup s now).1.disk.Perm
            (CacheManager.cleanup t now).1.disk ∧
          (CacheManager.cleanup s now).2 = (CacheManager.cleanup t now).2) := by
  refine ⟨rfl, CacheManager.cleanupFiles_fst now s.disk,
    CacheManager.cleanupFiles_snd now s.disk, ?_⟩
  intro hperm
  constructor
  · rw [CacheManager.cleanup, CacheManager.cleanup,
      CacheManager.cleanupFiles_fst, CacheManager.cleanupFiles_fst]
    exact hperm.filter _
  · rw [CacheManager.cleanup, CacheManager.cleanup,
      CacheManager.cleanupFiles_snd, CacheManager.cleanupFiles_snd]
    exact hperm.countP_eq _

theorem c4_witness :
    (CacheManager.cleanup
        (⟨3600, [("m", ⟨1, 0, 5⟩)],
          [("a", FileContent.entry ⟨1, 0, 10⟩), ("b", FileContent.corrupt),
            ("c", FileContent.entry ⟨2, 0, 1000⟩)]⟩ : CacheState ℤ) 100).2 = 2 ∧
      (CacheManager.cleanup
          (⟨3600, [("m", ⟨1, 0, 5⟩)],
            [("a", FileContent.entry ⟨1, 0, 10⟩), ("b", FileContent.corrupt),
              ("c", FileContent.entry ⟨2, 0, 1000⟩)]⟩ : CacheState ℤ)
          100).1.disk.Perm
        (CacheManager.cleanup
            (⟨3600, [],
              [("c", FileContent.entry ⟨2, 0, 1000⟩), ("b", FileContent.corrupt),
                ("a", FileContent.entry ⟨1, 0, 10⟩)]⟩ : CacheState ℤ)
            100).1.disk := by
  have h := c4_cleanup_exact
    (⟨3600, [("m", ⟨1, 0, 5⟩)],
      [("a", FileContent.entry ⟨1, 0, 10⟩), ("b", FileContent.corrupt),
        ("c", FileContent.entry ⟨2, 0, 1000⟩)]⟩ : CacheState ℤ)
    (⟨3600, [],
      [("c", FileContent.entry ⟨2, 0, 1000⟩), ("b", FileContent.corrupt),
        ("a", FileContent.entry ⟨1, 0, 10⟩)]⟩ : CacheState ℤ) 100
  exact ⟨h.2.2.1.trans (by decide), (h.2.2.2 (by decide)).1⟩

/-- C5 counterexample: on the boundary `now - createdAt = ttl` the lazy
and the eager check disagree.  An entry created at 0 with ttl 10 is, at
time 10, treated as expired by `get` — which deletes it from memory and
even unlinks the file — while `cleanup` at the same instant deletes
nothing. -/
theorem c5_counterexample :
    (CacheManager.get
        (⟨3600, [("k", ⟨7, 0, 10⟩)],
          [("k", FileContent.entry ⟨7, 0, 10⟩)]⟩ : CacheState ℤ)
        "k" (some 10) 10).1 = none ∧
      (CacheManager.get
          (⟨3600, [("k", ⟨7, 0, 10⟩)],
            [("k", FileContent.entry ⟨7, 0, 10⟩)]⟩ : CacheState ℤ)
          "k" (some 10) 10).2.disk = [] ∧
      (CacheManager.cleanup
          (⟨3600, [("k", ⟨7, 0, 10⟩)],
            [("k", FileContent.entry ⟨7, 0, 10⟩)]⟩ : CacheState ℤ) 10).1.disk =
        [("k", FileContent.entry ⟨7, 0, 10⟩)] ∧
      (CacheManager.cleanup
          (⟨3600, [("k", ⟨7, 0, 10⟩)],
            [("k", FileContent.entry ⟨7, 0, 10⟩)]⟩ : CacheState ℤ) 10).2 = 0 := by
  decide

/-- C5 (amended): `get` treats an entry as live iff
`now - createdAt < ttl` (strict) while `cleanup` deletes iff
`now - createdAt > ttl` (strict); off the boundary
`now - createdAt = ttl` the two predicates decide identically, and on the
boundary `get` treats the entry as expired while `cleanup` retains it.
(In addition, the file-tier `get` check substitutes the caller-supplied
TTL for the recorded one — see C1.) -/
theorem c5_predicates_agree_off_boundary {α : Type} (e : Entry α)
    (now : ℤ) :
    (now - e.time ≠ e.ttl →
        CacheManager.liveAt e e.ttl now = !CacheManager.staleFor e now) ∧
      (now - e.time = e.ttl →
        CacheManager.liveAt e e.ttl now = false ∧
          CacheManager.staleFor e now = false) := by
  constructor
  · intro h
    by_cases h1 : now - e.time < e.ttl
    · have h2 : ¬e.ttl < now - e.time := by omega
      simp [CacheManager.liveAt, CacheManager.staleFor, h1, h2]
    · have h2 : e.ttl < now - e.time := by omega
      simp [CacheManager.liveAt, CacheManager.staleFor, h1, h2]
  · intro h
    constructor <;> simp [CacheManager.liveAt, CacheManager.staleFor] <;> omega

theorem c5_witness :
    CacheManager.liveAt (⟨0, 0, 10⟩ : Entry ℤ) 10 3 =
      !CacheManager.staleFor (⟨0, 0, 10⟩ : Entry ℤ) 3 :=
  (c5_predicates_agree_off_boundary (⟨0, 0, 10⟩ : Entry ℤ) 3).1 (by decide)

/-- C6: round trip — for every state, key, value and positive ttl,
`set(k, v, ttl)` followed immediately (same clock value, no intervening
operation) by `get(k)` returns `v`, for any TTL argument of the `get` and
for every outcome of the disk write of the `set`. -/
theorem c6_round_trip {α : Type} (s : CacheState α) (k : String) (v : α)
    (t : ℤ) (ttl2 : Option ℤ) (now : ℤ) (w : CacheManager.WriteOutcome)
    (ht : 0 < t) :
    (CacheManager.get (CacheManager.set s k v (some t) now w) k ttl2
        now).1 = some v := by
  have hne : t ≠ 0 := ne_of_gt ht
  rw [CacheManager.get_fst]
  have hmem :
      lookupKey (CacheManager.set s k v (some t) now w).memory_cache k =
        some ⟨v, now, t⟩ := by
    simp [CacheManager.set, CacheManager.orDefault, hne, lookupKey_insert_self]
  rw [hmem]
  simp [CacheManager.getValueAt, CacheManager.liveAt, sub_self, ht]

theorem c6_witness :
    (CacheManager.get
        (CacheManager.set (⟨3600, [], []⟩ : CacheState ℤ) "k" 7 (some 10) 0
          CacheManager.WriteOutcome.ok)
        "k" none 0).1 = some 7 :=
  c6_round_trip (⟨3600, [], []⟩ : CacheState ℤ) "k" 7 10 none 0
    CacheManager.WriteOutcome.ok (by decide)

/-- C7 counterexample: a failed disk write during `set` is not a no-op
on the disk tier.  `open(cache_path, "wb")` truncates the existing file
before `pickle.dump` runs, so a dump-time failure (e.g. the disk-full
case the spec names) replaces a previously live persisted entry with a
truncated file that no longer deserializes: the prior disk state for the
key is destroyed, while the claim requires the disk tier to be left
unchanged. -/
theorem c7_counterexample :
    lookupKey
        ((⟨3600, [], [("k", FileContent.entry ⟨7, 0, 100⟩)]⟩ : CacheState ℤ)).disk
        "k" = some (FileContent.entry ⟨7, 0, 100⟩) ∧
      lookupKey
        (CacheManager.set
            (⟨3600, [], [("k", FileContent.entry ⟨7, 0, 100⟩)]⟩ : CacheState ℤ)
            "k" 9 (some 10) 0 CacheManager.WriteOutcome.dumpFail).disk "k" =
        some FileContent.corrupt := by
  decide

/-- C7 (amended): neither `get` nor `set` raises — every failure is
caught and logged.  If the memory tier does not serve the key and the
persisted file fails deserialization, `get` returns a miss.  `set`
updates the memory tier with the new entry whatever the outcome of the
disk write; a failure of `open` itself leaves the disk tier unchanged,
but a failure during `pickle.dump` leaves a truncated, undeserializable
file for that key — destroying any prior persisted entry — rather than
acting as a no-op.  Files of other keys are untouched in every case. -/
theorem c7_degrade_memory_first {α : Type} :
    (∀ (s : CacheState α) (k : String) (ttl : Option ℤ) (now : ℤ),
        (∀ e, lookupKey s.memory_cache k = some e →
          CacheManager.liveAt e e.ttl now = false) →
        lookupKey s.disk k = some FileContent.corrupt →
        (CacheManager.get s k ttl now).1 = none) ∧
      ∀ (s : CacheState α) (k : String) (v : α) (ttl : Option ℤ) (now : ℤ),
        (∀ w, lookupKey (CacheManager.set s k v ttl now w).memory_cache k =
          some ⟨v, now, CacheManager.orDefault s.default_ttl ttl⟩) ∧
          (CacheManager.set s k v ttl now
              CacheManager.WriteOutcome.openFail).disk = s.disk ∧
          lookupKey
              (CacheManager.set s k v ttl now
                CacheManager.WriteOutcome.dumpFail).disk k =
            some FileContent.corrupt ∧
          ∀ k', k' ≠ k → ∀ w,
            lookupKey (CacheManager.set s k v ttl now w).disk k' =
              lookupKey s.disk k' := by
  constructor
  · intro s k ttl now hm hd
    rw [CacheManager.get_fst]
    rcases hmem : lookupKey s.memory_cache k with _ | e
    · simp [CacheManager.getValueAt, hd, CacheManager.diskValueAt]
    · have hl := hm e hmem
      simp [CacheManager.getValueAt, hl, hd, CacheManager.diskValueAt]
  · intro s k v ttl now
    refine ⟨fun w => by simp [CacheManager.set, lookupKey_insert_self],
      rfl, by simp [CacheManager.set, lookupKey_insert_self], ?_⟩
    intro k' hk' w
    cases w with
    | ok => simp [CacheManager.set, lookupKey_insert_ne _ _ hk']
    | openFail => rfl
    | dumpFail => simp [CacheManager.set, lookupKey_insert_ne _ _ hk']

theorem c7_witness :
    (CacheManager.get (⟨3600, [], [("k", FileContent.corrupt)]⟩ : CacheState ℤ)
        "k" (some 5) 2).1 = none ∧
      lookupKey
        (CacheManager.set (⟨3600, [], [("k", FileContent.corrupt)]⟩ : CacheState ℤ)
            "k" 9 (some 5) 2 CacheManager.WriteOutcome.dumpFail).memory_cache
        "k" = some ⟨9, 2, 5⟩ ∧
      lookupKey
        (CacheManager.set (⟨3600, [], [("k", FileContent.corrupt)]⟩ : CacheState ℤ)
            "k" 9 (some 5) 2 CacheManager.WriteOutcome.dumpFail).disk "x" =
        none := by
  have h := c7_degrade_memory_first (α := ℤ)
  have h2 := h.2 (⟨3600, [], [("k", FileContent.corrupt)]⟩ : CacheState ℤ)
    "k" 9 (some 5) 2
  refine ⟨h.1 (⟨3600, [], [("k", FileContent.corrupt)]⟩ : CacheState ℤ)
    "k" (some 5) 2 ?_ (by decide), h2.1 CacheManager.WriteOutcome.dumpFail, ?_⟩
  · intro e he
    simp [lookupKey] at he
  · exact (h2.2.2.2 "x" (by decide) CacheManager.WriteOutcome.dumpFail).trans
      (by decide)

/-- C8 counterexample: the code returns one dict and stores the miss list
under the literal key `"uncached"` (line 237).  A requested filename that
is itself the string `"uncached"` and has a live cached duration is first
written into the dict as a hit and then clobbered by the miss list: it
ends up in neither the hits part nor the miss list, so the claimed
partition of the input fails. -/
theorem c8_counterexample :
    (MusicListCache.get_duration
        (⟨3600, [("duration:uncached", ⟨7, 0, 100⟩)], []⟩ : CacheState ℤ)
        "uncached" 0).1 = some 7 ∧
      (MusicListCache.get_duration_batch
          (⟨3600, [("duration:uncached", ⟨7, 0, 100⟩)], []⟩ : CacheState ℤ)
          ["uncached"] 0).1 =
        [("uncached", MusicListCache.BatchVal.missList [])] ∧
      MusicListCache.missesOf
        (MusicListCache.get_duration_batch
            (⟨3600, [("duration:uncached", ⟨7, 0, 100⟩)], []⟩ : CacheState ℤ)
            ["uncached"] 0).1 = [] := by
  decide

/-- C8 (amended): for every requested filename other than the literal
string `"uncached"`, the batch result partitions the request — the
filename is mapped to `dur v` in the returned dict and is absent from the
miss list exactly when `get_duration` on the initial state returns `v`,
and it is absent from the dict and listed in the miss list exactly when
`get_duration` misses.  A filename equal to `"uncached"` is exempt: its
hit entry is overwritten by the miss list stored under that key. -/
theorem c8_batch_partition {α : Type} (s : CacheState α)
    (filenames : List String) (now : ℤ) (f : String) (hmem : f ∈ filenames)
    (hf : f ≠ "uncached") :
    (∀ v : α, (MusicListCache.get_duration s f now).1 = some v →
        lookupKey (MusicListCache.get_duration_batch s filenames now).1 f =
            some (MusicListCache.BatchVal.dur v) ∧
          f ∉ MusicListCache.missesOf
            (MusicListCache.get_duration_batch s filenames now).1) ∧
      ((MusicListCache.get_duration s f now).1 = none →
        lookupKey (MusicListCache.get_duration_batch s filenames now).1 f =
            none ∧
          f ∈ MusicListCache.missesOf
            (MusicListCache.get_duration_batch s filenames now).1) := by
  constructor
  · intro v hv
    rw [MusicListCache.get_duration_fst] at hv
    have h := MusicListCache.batchLoop_hit now hf filenames s [] [] hv
    refine ⟨h.1 hmem, fun hc => ?_⟩
    have := h.2.2.mp hc
    simp at this
  · intro hv
    rw [MusicListCache.get_duration_fst] at hv
    have h := MusicListCache.batchLoop_missed now hf filenames s [] [] hv
    refine ⟨h.1, ?_⟩
    rw [MusicListCache.get_duration_batch, h.2]
    exact Or.inr hmem

theorem c8_witness :
    lookupKey
        (MusicListCache.get_duration_batch
            (⟨3600, [("duration:a", ⟨5, 0, 100⟩)], []⟩ : CacheState ℤ)
            ["a", "b"] 0).1 "a" = some (MusicListCache.BatchVal.dur 5) ∧
      lookupKey
        (MusicListCache.get_duration_batch
            (⟨3600, [("duration:a", ⟨5, 0, 100⟩)], []⟩ : CacheState ℤ)
            ["a", "b"] 0).1 "b" = none ∧
      "b" ∈ MusicListCache.missesOf
        (MusicListCache.get_duration_batch
            (⟨3600, [("duration:a", ⟨5, 0, 100⟩)], []⟩ : CacheState ℤ)
            ["a", "b"] 0).1 := by
  have ha := (c8_batch_partition
    (⟨3600, [("duration:a", ⟨5, 0, 100⟩)], []⟩ : CacheState ℤ)
    ["a", "b"] 0 "a" (by decide) (by decide)).1 5 (by decide)
  have hb := (c8_batch_partition
    (⟨3600, [("duration:a", ⟨5, 0, 100⟩)], []⟩ : CacheState ℤ)
    ["a", "b"] 0 "b" (by decide) (by decide)).2 (by decide)
  exact ⟨ha.1, hb.1, hb.2⟩

/-- C9 counterexample: the code branches on Python truthiness
(`if key:`, line 115), so `clear("")` takes the clear-everything branch:
with the empty string as the key, the entry and the file of the distinct
key `"a"` are wiped, contradicting the claimed frame condition for every
other key. -/
theorem c9_counterexample :
    lookupKey
        ((⟨3600, [("a", ⟨7, 0, 100⟩)],
          [("a", FileContent.entry ⟨7, 0, 100⟩)]⟩ : CacheState ℤ)).memory_cache
        "a" = some ⟨7, 0, 100⟩ ∧
      lookupKey
        (CacheManager.clear
            (⟨3600, [("a", ⟨7, 0, 100⟩)],
              [("a", FileContent.entry ⟨7, 0, 100⟩)]⟩ : CacheState ℤ)
            (some "")).memory_cache "a" = none ∧
      lookupKey
        (CacheManager.clear
            (⟨3600, [("a", ⟨7, 0, 100⟩)],
              [("a", FileContent.entry ⟨7, 0, 100⟩)]⟩ : CacheState ℤ)
            (some "")).disk "a" = none := by
  decide

/-- C9 (amended): for every non-empty key `k`, `clear(k)` removes the
entry of `k` from the memory tier and the file of `k` from the disk tier,
a subsequent `get(k)` returns absent, and every other key is untouched in
both tiers.  For the empty string the truthiness branch clears
everything instead. -/
theorem c9_clear_frame {α : Type} (s : CacheState α) (k k' : String)
    (ttl : Option ℤ) (now : ℤ) (hk : k ≠ "") (hk' : k' ≠ k) :
    lookupKey (CacheManager.clear s (some k)).memory_cache k = none ∧
      lookupKey (CacheManager.clear s (some k)).disk k = none ∧
      (CacheManager.get (CacheManager.clear s (some k)) k ttl now).1 = none ∧
      lookupKey (CacheManager.clear s (some k)).memory_cache k' =
        lookupKey s.memory_cache k' ∧
      lookupKey (CacheManager.clear s (some k)).disk k' =
        lookupKey s.disk k' := by
  have hclear : CacheManager.clear s (some k) =
      { s with
        memory_cache := eraseKey s.memory_cache k
        disk := eraseKey s.disk k } := by
    simp [CacheManager.clear, hk]
  rw [hclear]
  refine ⟨lookupKey_erase_self _ _, lookupKey_erase_self _ _, ?_,
    lookupKey_erase_ne _ hk', lookupKey_erase_ne _ hk'⟩
  rw [CacheManager.get_fst]
  simp [lookupKey_erase_self, CacheManager.getValueAt, CacheManager.diskValueAt]

theorem c9_witness :
    lookupKey
        (CacheManager.clear
            (⟨3600, [("a", ⟨7, 0, 100⟩), ("b", ⟨8, 0, 100⟩)],
              [("a", FileContent.entry ⟨7, 0, 100⟩),
                ("b", FileContent.entry ⟨8, 0, 100⟩)]⟩ : CacheState ℤ)
            (some "a")).memory_cache "a" = none ∧
      lookupKey
        (CacheManager.clear
            (⟨3600, [("a", ⟨7, 0, 100⟩), ("b", ⟨8, 0, 100⟩)],
              [("a", FileContent.entry ⟨7, 0, 100⟩),
                ("b", FileContent.entry ⟨8, 0, 100⟩)]⟩ : CacheState ℤ)
            (some "a")).memory_cache "b" = some ⟨8, 0, 100⟩ := by
  have h := c9_clear_frame
    (⟨3600, [("a", ⟨7, 0, 100⟩), ("b", ⟨8, 0, 100⟩)],
      [("a", FileContent.entry ⟨7, 0, 100⟩),
        ("b", FileContent.entry ⟨8, 0, 100⟩)]⟩ : CacheState ℤ)
    "a" "b" none 0 (by decide) (by decide)
  exact ⟨h.1, h.2.2.2.1.trans (by decide)⟩

/-- C10: both `get` and `set` coerce the caller TTL with
`ttl or default_ttl`, and `0` is falsy in Python: passing `ttl = 0`
behaves exactly like passing no TTL, and `set` with `ttl = 0` records a
fresh entry carrying the configured default TTL rather than an
immediately-expired one. -/
theorem c10_zero_ttl_is_default {α : Type} (s : CacheState α) (k : String)
    (v : α) (now : ℤ) (w : CacheManager.WriteOutcome) :
    CacheManager.set s k v (some 0) now w =
        CacheManager.set s k v none now w ∧
      CacheManager.get s k (some 0) now = CacheManager.get s k none now ∧
      lookupKey (CacheManager.set s k v (some 0) now w).memory_cache k =
        some ⟨v, now, s.default_ttl⟩ := by
  have h0 : CacheManager.orDefault s.default_ttl (some 0) =
      CacheManager.orDefault s.default_ttl none := by
    simp [CacheManager.orDefault]
  refine ⟨?_, ?_, ?_⟩
  · unfold CacheManager.set
    rw [h0]
  · unfold CacheManager.get
    rw [h0]
  · simp [CacheManager.set, CacheManager.orDefault, lookupKey_insert_self]

end XiaoMusic
